import Mathlib

/-!
Shallow embedding of `artifact/image/layerscanning/trace/trace.go` from the
osv-scalibr repository: the layer-origin resolution engine
(`ResolveOriginLayer`) and the attribution merge (`PopulateLayerDetails`).

Modelling conventions:

* Go machine integers that hold layer indices are modelled as `Int`
  (`LayerDetails.Index`, `ChainLayer.Index()` are Go `int`s); loop counters
  that are provably non-negative are `Nat` and cast where the Go code stores
  them into `int` fields.
* The Go map `map[extractor.InventoryKey]*extractor.LayerDetails` is modelled
  extensionally as an association list with first-match lookup; a Go map
  assignment is a cons onto the list (later assignments shadow earlier ones),
  and a Go map read of a missing key yields the zero value (`nil`, modelled as
  `none`).  A stored `nil` pointer is a stored `none` value.
* `inv.ToKey()` lives in the `extractor` package (outside the traced file).
  It is a deterministic, pure function of the inventory record that either
  returns an `extractor.InventoryKey` or fails; we model its result as a field
  `toKeyResult` carried by the record (equal records have equal key results,
  which is exactly the determinism the resolver relies on).
* `filesystem.Run(ctx, makeExtractorConfig(locations, chainLayers[i].FS()))`
  is external extraction code.  The only data from `ResolveOriginLayer` that
  reaches it and can influence its result are the restricted path set
  (`FilesToExtract = inv.Locations`) and the chain layer's filesystem (chosen
  by the position `i`); the context and the remaining config fields are copied
  through unchanged for every probe.  We therefore model it as an arbitrary
  function `run : Nat → List String → Option (List Inventory)` where `none`
  models a non-nil error (in which case the Go code discards the returned
  inventory) and `some l` models a successful probe returning inventory `l`.
  A canceled context makes `filesystem.Run` fail, i.e. it is one particular
  choice of `run`.
* A Go runtime panic (out-of-range slice index) is modelled by the resolver
  returning `none` at top level.
-/

set_option autoImplicit false

namespace Trace

/-- `extractor.InventoryKey`: the comparable struct used as the map key, as
exhibited by the repository's tests (`PURL` and `Path` strings). -/
structure InventoryKey where
  purl : String
  path : String
deriving DecidableEq, Repr

/-- `extractor.LayerDetails`: the attribution record.  `Index` is a Go `int`,
modelled as `Int`; fields left out of a Go composite literal take their zero
value (`false` for `InBaseImage`). -/
structure LayerDetails where
  index : Int
  diffID : String
  command : String
  inBaseImage : Bool
deriving DecidableEq, Repr

/-- A chain layer as consumed by `ResolveOriginLayer`: `Index()` (a Go `int`),
and the per-layer metadata `Layer().DiffID()` and `Layer().Command()`.  Its
filesystem `FS()` is identified by the layer's position in the chain-layer
list and reaches the embedding through the probe function `RunFn`. -/
structure ChainLayer where
  index : Int
  diffID : String
  command : String
deriving DecidableEq, Repr

/-- `extractor.Inventory`: the fields read or copied by the traced file.
`toKeyResult` carries the (deterministic) result of the external
`Inventory.ToKey()` method: `none` models a non-nil error. -/
structure Inventory where
  name : String
  version : String
  sourceCode : String
  locations : List String
  extractor : String
  annotations : List String
  toKeyResult : Option InventoryKey
  layerDetails : Option LayerDetails
deriving DecidableEq, Repr

/-- `inv.ToKey()`: deterministic per record; `none` models the error case. -/
def Inventory.toKey (inv : Inventory) : Option InventoryKey :=
  inv.toKeyResult

/-- The Go map `map[extractor.InventoryKey]*extractor.LayerDetails`, modelled
extensionally as an association list (first match wins on lookup).  The value
type is `Option LayerDetails` because the Go values are nullable pointers. -/
abbrev OriginMap := List (InventoryKey × Option LayerDetails)

/-- Go map read `m[k]`: the stored pointer, or the zero value `nil` (= `none`)
when the key is missing. -/
def originLookup : OriginMap → InventoryKey → Option LayerDetails
  | [], _ => none
  | p :: rest, k => if p.1 = k then p.2 else originLookup rest k

/-- Go map assignment `m[k] = v`: later assignments shadow earlier ones. -/
def originInsert (m : OriginMap) (k : InventoryKey) (v : Option LayerDetails) :
    OriginMap :=
  (k, v) :: m

/-- Positional search backing the two metadata maps: Go builds
`layerToCommands`/`layerToDiffID` by `for i, chainLayer := range chainLayers`,
keying by the loop position `i`. -/
def layerMetaFind : List ChainLayer → Int → Int → Option ChainLayer
  | [], _, _ => none
  | c :: rest, pos, i => if pos = i then some c else layerMetaFind rest (pos + 1) i

/-- The Go map `layerToDiffID[i]`; a missing key reads as the zero value. -/
def layerToDiffID (chainLayers : List ChainLayer) (i : Int) : String :=
  match layerMetaFind chainLayers 0 i with
  | some c => c.diffID
  | none => ""

/-- The Go map `layerToCommands[i]`; a missing key reads as the zero value. -/
def layerToCommands (chainLayers : List ChainLayer) (i : Int) : String :=
  match layerMetaFind chainLayers 0 i with
  | some c => c.command
  | none => ""

/-- The probe `filesystem.Run(ctx, makeExtractorConfig(locations, L[i].FS()))`:
argument 1 is the chain-layer position, argument 2 the restricted path set;
`none` models a non-nil error. -/
abbrev RunFn := Nat → List String → Option (List Inventory)

/-- The inner membership loop of `ResolveOriginLayer`: compute `ToKey` for
every re-extracted item (skipping failures) and compare with `invKey`. -/
def foundPackage (oldInventory : List Inventory) (invKey : InventoryKey) : Bool :=
  oldInventory.any (fun oldInv => decide (oldInv.toKey = some invKey))

/-- The backward walk `for i := len(chainLayers) - 2; i >= 0; i--` of
`ResolveOriginLayer`, for one inventory item.  The fuel argument is `i + 1`
(so fuel `0` means the loop is over).  `some d` means the loop set
`foundOrigin = true` after assigning the attribution `d` (first absence found
at the probed layer, attributing layer `i + 1`); `none` means the loop ended
with `foundOrigin == false` — either it walked to the bottom, or it hit the
`break` for empty locations, or the `break` for a probe error. -/
def originWalk (run : RunFn) (chainLayers : List ChainLayer) (inv : Inventory)
    (invKey : InventoryKey) : Nat → Option LayerDetails
  | 0 => none
  | i + 1 =>
    if inv.locations.isEmpty then none
    else
      match run i inv.locations with
      | none => none
      | some oldInventory =>
        if foundPackage oldInventory invKey then
          originWalk run chainLayers inv invKey i
        else
          some { index := (i : Int) + 1
                 diffID := layerToDiffID chainLayers ((i : Int) + 1)
                 command := layerToCommands chainLayers ((i : Int) + 1)
                 inBaseImage := false }

/-- Instrumentation of `originWalk`: the chain-layer positions at which the
loop actually invokes `filesystem.Run`, in probe order (newest first).  It
mirrors `originWalk` step for step and records `i` exactly when the loop body
reaches the `filesystem.Run` call. -/
def probedLayers (run : RunFn) (inv : Inventory) (invKey : InventoryKey) :
    Nat → List Nat
  | 0 => []
  | i + 1 =>
    if inv.locations.isEmpty then []
    else
      match run i inv.locations with
      | none => [i]
      | some oldInventory =>
        if foundPackage oldInventory invKey then
          i :: probedLayers run inv invKey i
        else
          [i]

/-- One iteration of the outer `for _, inv := range inventory` loop of
`ResolveOriginLayer`.  The Go body first evaluates
`chainLayers[len(chainLayers)-1]` (a panic — `none` here — when the chain is
empty), then `inv.ToKey()` (`continue` on error), then writes the
newest-layer default, runs the backward walk, and finally — because a walk
that ended with `foundOrigin == false` falls through to the trailing
`if !foundOrigin` block — overwrites the entry with layer 0's details.  The
mid-loop assignment made at the moment an absence is found is the walk's
`some` result; nothing reads the map between that assignment and the `break`,
so performing it after the walk is extensionally identical. -/
def processItem (run : RunFn) (chainLayers : List ChainLayer) (m : OriginMap)
    (inv : Inventory) : Option OriginMap :=
  match chainLayers.get? (chainLayers.length - 1) with
  | none => none
  | some lastChainLayer =>
    match inv.toKey with
    | none => some m
    | some invKey =>
      let layerIndex := lastChainLayer.index
      let m1 := originInsert m invKey (some
        { index := layerIndex
          diffID := layerToDiffID chainLayers layerIndex
          command := layerToCommands chainLayers layerIndex
          inBaseImage := false })
      match originWalk run chainLayers inv invKey (chainLayers.length - 1) with
      | some d => some (originInsert m1 invKey (some d))
      | none => some (originInsert m1 invKey (some
          { index := 0
            diffID := layerToDiffID chainLayers 0
            command := layerToCommands chainLayers 0
            inBaseImage := false }))

/-- The outer loop of `ResolveOriginLayer`, threading the map through the
items in order; `none` propagates a panic. -/
def resolveLoop (run : RunFn) (chainLayers : List ChainLayer) :
    List Inventory → OriginMap → Option OriginMap
  | [], m => some m
  | inv :: rest, m =>
    match processItem run chainLayers m inv with
    | none => none
    | some m1 => resolveLoop run chainLayers rest m1

/-- `ResolveOriginLayer` from `trace.go`.  `none` models a runtime panic
(the out-of-range index `chainLayers[len(chainLayers)-1]`); otherwise
`some m` is the returned map. -/
def ResolveOriginLayer (run : RunFn) (inventory : List Inventory)
    (chainLayers : List ChainLayer) : Option OriginMap :=
  resolveLoop run chainLayers inventory []

/-- The attribution the returned map assigns to a key: `none` if the call
panicked or the key is absent. -/
def resolvedDetails (run : RunFn) (inventory : List Inventory)
    (chainLayers : List ChainLayer) (k : InventoryKey) : Option LayerDetails :=
  match ResolveOriginLayer run inventory chainLayers with
  | some m => originLookup m k
  | none => none

/-- The loop body of `PopulateLayerDetails`: build the copy (the composite
literal names `Name`, `Version`, `SourceCode`, `Locations`, `Extractor` and
`Annotations`; `LayerDetails` is left at its zero value `nil`), then set
`LayerDetails` from the map when `ToKey` succeeds and the stored pointer is
non-nil.  `toKeyResult` is determined by the copied fields, so the copy
carries the same value. -/
def enrichInventory (originDetails : OriginMap) (inv : Inventory) : Inventory :=
  let newInv : Inventory :=
    { name := inv.name
      version := inv.version
      sourceCode := inv.sourceCode
      locations := inv.locations
      extractor := inv.extractor
      annotations := inv.annotations
      toKeyResult := inv.toKeyResult
      layerDetails := none }
  match inv.toKey with
  | none => newInv
  | some invKey =>
    match originLookup originDetails invKey with
    | some d => { newInv with layerDetails := some d }
    | none => newInv

/-- `PopulateLayerDetails` from `trace.go`: the Go loop appends one enriched
copy per input item, in input order, which is a map over the list. -/
def PopulateLayerDetails (inventory : List Inventory)
    (originDetails : OriginMap) : List Inventory :=
  inventory.map (enrichInventory originDetails)

/-! ### Map and layer-metadata lemmas -/

theorem originLookup_insert_self (m : OriginMap) (k : InventoryKey)
    (v : Option LayerDetails) : originLookup (originInsert m k v) k = v := by
  simp [originInsert, originLookup]

theorem originLookup_insert_other (m : OriginMap) (k q : InventoryKey)
    (v : Option LayerDetails) (h : k ≠ q) :
    originLookup (originInsert m k v) q = originLookup m q := by
  simp [originInsert, originLookup, h]

theorem layerMetaFind_eq_get? (l : List ChainLayer) :
    ∀ (k : Nat) (pos : Int), layerMetaFind l pos (pos + (k : Int)) = l.get? k := by
  induction l with
  | nil => intro k pos; simp [layerMetaFind]
  | cons c rest ih =>
    intro k pos
    cases k with
    | zero => simp [layerMetaFind]
    | succ j =>
      rw [show pos + ((j + 1 : Nat) : Int) = (pos + 1) + (j : Int) by push_cast; ring]
      simp only [layerMetaFind]
      rw [if_neg (by omega), ih j (pos + 1)]
      simp [List.get?]

theorem layerToDiffID_get? (cl : List ChainLayer) (k : Nat) (c : ChainLayer)
    (h : cl.get? k = some c) : layerToDiffID cl (k : Int) = c.diffID := by
  have h0 := layerMetaFind_eq_get? cl k 0
  rw [zero_add] at h0
  unfold layerToDiffID
  rw [h0, h]

theorem layerToCommands_get? (cl : List ChainLayer) (k : Nat) (c : ChainLayer)
    (h : cl.get? k = some c) : layerToCommands cl (k : Int) = c.command := by
  have h0 := layerMetaFind_eq_get? cl k 0
  rw [zero_add] at h0
  unfold layerToCommands
  rw [h0, h]

theorem layerToDiffID_zero (cl : List ChainLayer) (c0 : ChainLayer)
    (h : cl.get? 0 = some c0) : layerToDiffID cl 0 = c0.diffID := by
  have := layerToDiffID_get? cl 0 c0 h
  simpa using this

theorem layerToCommands_zero (cl : List ChainLayer) (c0 : ChainLayer)
    (h : cl.get? 0 = some c0) : layerToCommands cl 0 = c0.command := by
  have := layerToCommands_get? cl 0 c0 h
  simpa using this

/-! ### Backward-walk lemmas -/

theorem isEmpty_false_of_ne_nil {l : List String} (h : l ≠ []) :
    l.isEmpty = false := by
  cases l with
  | nil => exact absurd rfl h
  | cons a t => rfl

theorem originWalk_empty_locations (run : RunFn) (cl : List ChainLayer)
    (inv : Inventory) (invKey : InventoryKey) (h : inv.locations = []) :
    ∀ f, originWalk run cl inv invKey f = none := by
  intro f
  cases f with
  | zero => rfl
  | succ j => simp [originWalk, h]

theorem probedLayers_empty_locations (run : RunFn) (inv : Inventory)
    (invKey : InventoryKey) (h : inv.locations = []) :
    ∀ f, probedLayers run inv invKey f = [] := by
  intro f
  cases f with
  | zero => rfl
  | succ j => simp [probedLayers, h]

theorem originWalk_absent (run : RunFn) (cl : List ChainLayer) (inv : Inventory)
    (invKey : InventoryKey) (j : Nat) (out : List Inventory)
    (hloc : inv.locations ≠ []) (hrun : run j inv.locations = some out)
    (habs : foundPackage out invKey = false) :
    originWalk run cl inv invKey (j + 1) =
      some { index := (j : Int) + 1
             diffID := layerToDiffID cl ((j : Int) + 1)
             command := layerToCommands cl ((j : Int) + 1)
             inBaseImage := false } := by
  simp [originWalk, isEmpty_false_of_ne_nil hloc, hrun, habs]

theorem originWalk_error (run : RunFn) (cl : List ChainLayer) (inv : Inventory)
    (invKey : InventoryKey) (j : Nat)
    (hloc : inv.locations ≠ []) (hrun : run j inv.locations = none) :
    originWalk run cl inv invKey (j + 1) = none := by
  simp [originWalk, isEmpty_false_of_ne_nil hloc, hrun]

theorem originWalk_skip_found (run : RunFn) (cl : List ChainLayer)
    (inv : Inventory) (invKey : InventoryKey) (hloc : inv.locations ≠ [])
    (b : Nat) : ∀ f, b ≤ f →
    (∀ i, b ≤ i → i < f →
      ∃ out, run i inv.locations = some out ∧ foundPackage out invKey = true) →
    originWalk run cl inv invKey f = originWalk run cl inv invKey b := by
  intro f
  induction f with
  | zero =>
    intro hb _
    rw [Nat.le_zero.mp hb]
  | succ j ih =>
    intro hb hfound
    rcases Nat.eq_or_lt_of_le hb with heq | hlt
    · rw [heq]
    · have hj : b ≤ j := Nat.lt_succ_iff.mp hlt
      obtain ⟨out, hrun, hfp⟩ := hfound j hj (Nat.lt_succ_self j)
      have hstep : originWalk run cl inv invKey (j + 1) =
          originWalk run cl inv invKey j := by
        simp [originWalk, isEmpty_false_of_ne_nil hloc, hrun, hfp]
      rw [hstep]
      exact ih hj (fun i h1 h2 => hfound i h1 (Nat.lt_succ_of_lt h2))

theorem originWalk_all_found (run : RunFn) (cl : List ChainLayer)
    (inv : Inventory) (invKey : InventoryKey) : ∀ f,
    (∀ i, i < f →
      ∃ out, run i inv.locations = some out ∧ foundPackage out invKey = true) →
    originWalk run cl inv invKey f = none := by
  intro f
  induction f with
  | zero => intro _; rfl
  | succ j ih =>
    intro hfound
    by_cases hloc : inv.locations = []
    · exact originWalk_empty_locations run cl inv invKey hloc (j + 1)
    · obtain ⟨out, hrun, hfp⟩ := hfound j (Nat.lt_succ_self j)
      have hstep : originWalk run cl inv invKey (j + 1) =
          originWalk run cl inv invKey j := by
        simp [originWalk, isEmpty_false_of_ne_nil hloc, hrun, hfp]
      rw [hstep]
      exact ih (fun i h => hfound i (Nat.lt_succ_of_lt h))

theorem probedLayers_lower_bound (run : RunFn) (inv : Inventory)
    (invKey : InventoryKey) (b : Nat)
    (hstop : ∀ out, run (b - 1) inv.locations = some out →
      foundPackage out invKey = false) : ∀ f, b ≤ f →
    (∀ i, b ≤ i → i < f →
      ∃ out, run i inv.locations = some out ∧ foundPackage out invKey = true) →
    ∀ j ∈ probedLayers run inv invKey f, b - 1 ≤ j := by
  intro f
  induction f with
  | zero => intro _ _ j hj; simp [probedLayers] at hj
  | succ t ih =>
    intro hb hfound j hj
    by_cases hloc : inv.locations = []
    · rw [probedLayers_empty_locations run inv invKey hloc] at hj
      simp at hj
    rcases Nat.eq_or_lt_of_le hb with heq | hlt
    · cases hrun : run t inv.locations with
      | none =>
        simp [probedLayers, isEmpty_false_of_ne_nil hloc, hrun] at hj
        omega
      | some out =>
        have hfp : foundPackage out invKey = false := by
          apply hstop
          rw [heq]
          simpa using hrun
        simp [probedLayers, isEmpty_false_of_ne_nil hloc, hrun, hfp] at hj
        omega
    · have ht : b ≤ t := Nat.lt_succ_iff.mp hlt
      obtain ⟨out, hrun, hfp⟩ := hfound t ht (Nat.lt_succ_self t)
      simp only [probedLayers, isEmpty_false_of_ne_nil hloc, hrun, hfp,
        Bool.false_eq_true, if_false, if_true, List.mem_cons] at hj
      rcases hj with hj | hj
      · omega
      · exact ih ht (fun i h1 h2 => hfound i h1 (Nat.lt_succ_of_lt h2)) j hj

/-! ### Per-item and loop lemmas -/

/-- The attribution an item's iteration finally leaves in the map: the walk's
mid-loop assignment when an absence was found, otherwise the trailing
`if !foundOrigin` assignment of layer 0's details. -/
def itemFinal (run : RunFn) (cl : List ChainLayer) (inv : Inventory)
    (invKey : InventoryKey) : LayerDetails :=
  match originWalk run cl inv invKey (cl.length - 1) with
  | some d => d
  | none =>
    { index := 0
      diffID := layerToDiffID cl 0
      command := layerToCommands cl 0
      inBaseImage := false }

theorem get?_last_some {cl : List ChainLayer} (hcl : cl ≠ []) :
    ∃ c, cl.get? (cl.length - 1) = some c := by
  have hlen : 0 < cl.length := List.length_pos.mpr hcl
  have hlt : cl.length - 1 < cl.length := by omega
  exact ⟨cl.get ⟨cl.length - 1, hlt⟩, List.get?_eq_get hlt⟩

theorem processItem_skip (run : RunFn) (cl : List ChainLayer) (m : OriginMap)
    (inv : Inventory) (c : ChainLayer) (hc : cl.get? (cl.length - 1) = some c)
    (hkey : inv.toKey = none) : processItem run cl m inv = some m := by
  unfold processItem
  rw [hc, hkey]

theorem processItem_eq_of_key (run : RunFn) (cl : List ChainLayer)
    (m : OriginMap) (inv : Inventory) (invKey : InventoryKey) (c : ChainLayer)
    (hc : cl.get? (cl.length - 1) = some c) (hkey : inv.toKey = some invKey) :
    processItem run cl m inv = some (originInsert
      (originInsert m invKey (some
        { index := c.index
          diffID := layerToDiffID cl c.index
          command := layerToCommands cl c.index
          inBaseImage := false }))
      invKey (some (itemFinal run cl inv invKey))) := by
  unfold processItem
  rw [hc, hkey]
  unfold itemFinal
  cases hw : originWalk run cl inv invKey (cl.length - 1) <;> simp [hw]

theorem processItem_none_of_nil (run : RunFn) (m : OriginMap) (inv : Inventory) :
    processItem run [] m inv = none := by
  unfold processItem
  rfl

theorem processItem_isSome (run : RunFn) {cl : List ChainLayer} (m : OriginMap)
    (inv : Inventory) (hcl : cl ≠ []) : (processItem run cl m inv).isSome := by
  obtain ⟨c, hc⟩ := get?_last_some hcl
  cases hkey : inv.toKey with
  | none => rw [processItem_skip run cl m inv c hc hkey]; rfl
  | some invKey => rw [processItem_eq_of_key run cl m inv invKey c hc hkey]; rfl

theorem processItem_lookup_self (run : RunFn) {cl : List ChainLayer}
    {m m' : OriginMap} {inv : Inventory} {invKey : InventoryKey}
    (hm : processItem run cl m inv = some m') (hkey : inv.toKey = some invKey) :
    originLookup m' invKey = some (itemFinal run cl inv invKey) := by
  cases hc : cl.get? (cl.length - 1) with
  | none =>
    unfold processItem at hm
    rw [hc] at hm
    exact absurd hm (by simp)
  | some c =>
    rw [processItem_eq_of_key run cl m inv invKey c hc hkey] at hm
    cases hm
    exact originLookup_insert_self _ _ _

theorem processItem_lookup_other (run : RunFn) {cl : List ChainLayer}
    {m m' : OriginMap} {inv : Inventory} {q : InventoryKey}
    (hm : processItem run cl m inv = some m') (hq : inv.toKey ≠ some q) :
    originLookup m' q = originLookup m q := by
  cases hc : cl.get? (cl.length - 1) with
  | none =>
    unfold processItem at hm
    rw [hc] at hm
    exact absurd hm (by simp)
  | some c =>
    cases hkey : inv.toKey with
    | none =>
      rw [processItem_skip run cl m inv c hc hkey] at hm
      cases hm
      rfl
    | some invKey =>
      have hne : invKey ≠ q := fun h => hq (hkey.trans (congrArg some h))
      rw [processItem_eq_of_key run cl m inv invKey c hc hkey] at hm
      cases hm
      rw [originLookup_insert_other _ _ _ _ hne,
        originLookup_insert_other _ _ _ _ hne]

theorem processItem_lookup_isSome_mono (run : RunFn) {cl : List ChainLayer}
    {m m' : OriginMap} {inv : Inventory} {q : InventoryKey}
    (hm : processItem run cl m inv = some m')
    (h : (originLookup m q).isSome) : (originLookup m' q).isSome := by
  cases hc : cl.get? (cl.length - 1) with
  | none =>
    unfold processItem at hm
    rw [hc] at hm
    exact absurd hm (by simp)
  | some c =>
    cases hkey : inv.toKey with
    | none =>
      rw [processItem_skip run cl m inv c hc hkey] at hm
      cases hm
      exact h
    | some invKey =>
      rw [processItem_eq_of_key run cl m inv invKey c hc hkey] at hm
      cases hm
      by_cases hq : invKey = q
      · subst hq
        rw [originLookup_insert_self]
        rfl
      · rw [originLookup_insert_other _ _ _ _ hq,
          originLookup_insert_other _ _ _ _ hq]
        exact h

theorem resolveLoop_isSome (run : RunFn) {cl : List ChainLayer}
    (hcl : cl ≠ []) : ∀ (l : List Inventory) (m : OriginMap),
    (resolveLoop run cl l m).isSome := by
  intro l
  induction l with
  | nil => intro m; rfl
  | cons a t ih =>
    intro m
    obtain ⟨m1, hm1⟩ := Option.isSome_iff_exists.mp (processItem_isSome run m a hcl)
    simp only [resolveLoop, hm1]
    exact ih m1

theorem resolveLoop_append (run : RunFn) (cl : List ChainLayer)
    (l1 l2 : List Inventory) (m : OriginMap) :
    resolveLoop run cl (l1 ++ l2) m =
      (resolveLoop run cl l1 m).bind (fun m1 => resolveLoop run cl l2 m1) := by
  induction l1 generalizing m with
  | nil => simp [resolveLoop]
  | cons a t ih =>
    simp only [List.cons_append, resolveLoop]
    cases processItem run cl m a <;> simp [ih]

theorem resolveLoop_lookup_other (run : RunFn) {cl : List ChainLayer}
    {q : InventoryKey} : ∀ {l : List Inventory} {m m' : OriginMap},
    (∀ x ∈ l, x.toKey ≠ some q) → resolveLoop run cl l m = some m' →
    originLookup m' q = originLookup m q := by
  intro l
  induction l with
  | nil =>
    intro m m' _ hm
    cases hm
    rfl
  | cons a t ih =>
    intro m m' hq hm
    simp only [resolveLoop] at hm
    cases hp : processItem run cl m a with
    | none => rw [hp] at hm; exact absurd hm (by simp)
    | some m1 =>
      rw [hp] at hm
      have h1 := processItem_lookup_other run hp (hq a (List.mem_cons_self a t))
      have h2 := ih (fun x hx => hq x (List.mem_cons_of_mem a hx)) hm
      rw [h2, h1]

theorem resolveLoop_lookup_isSome_mono (run : RunFn) {cl : List ChainLayer}
    {q : InventoryKey} : ∀ {l : List Inventory} {m m' : OriginMap},
    resolveLoop run cl l m = some m' → (originLookup m q).isSome →
    (originLookup m' q).isSome := by
  intro l
  induction l with
  | nil =>
    intro m m' hm h
    cases hm
    exact h
  | cons a t ih =>
    intro m m' hm h
    simp only [resolveLoop] at hm
    cases hp : processItem run cl m a with
    | none => rw [hp] at hm; exact absurd hm (by simp)
    | some m1 =>
      rw [hp] at hm
      exact ih hm (processItem_lookup_isSome_mono run hp h)

theorem resolveLoop_keyed_present (run : RunFn) {cl : List ChainLayer}
    {q : InventoryKey} : ∀ {l : List Inventory} {m m' : OriginMap}
    {inv : Inventory}, resolveLoop run cl l m = some m' → inv ∈ l →
    inv.toKey = some q → (originLookup m' q).isSome := by
  intro l
  induction l with
  | nil => intro m m' inv _ hmem; simp at hmem
  | cons a t ih =>
    intro m m' inv hm hmem hkey
    simp only [resolveLoop] at hm
    cases hp : processItem run cl m a with
    | none => rw [hp] at hm; exact absurd hm (by simp)
    | some m1 =>
      rw [hp] at hm
      rcases List.mem_cons.mp hmem with heq | hmem'
      · subst heq
        have h1 : (originLookup m1 q).isSome := by
          rw [processItem_lookup_self run hp hkey]
          rfl
        exact resolveLoop_lookup_isSome_mono run hm h1
      · exact ih hm hmem' hkey

/-- Two maps agree on every key other than `q`. -/
def agreeExcept (q : InventoryKey) (m1 m2 : OriginMap) : Prop :=
  ∀ r, r ≠ q → originLookup m1 r = originLookup m2 r

theorem processItem_agree (run : RunFn) {cl : List ChainLayer}
    {q : InventoryKey} {m1 m2 m1' m2' : OriginMap} {inv : Inventory}
    (h12 : agreeExcept q m1 m2) (hA : processItem run cl m1 inv = some m1')
    (hB : processItem run cl m2 inv = some m2') : agreeExcept q m1' m2' := by
  cases hc : cl.get? (cl.length - 1) with
  | none =>
    unfold processItem at hA
    rw [hc] at hA
    exact absurd hA (by simp)
  | some c =>
    cases hkey : inv.toKey with
    | none =>
      rw [processItem_skip run cl m1 inv c hc hkey] at hA
      rw [processItem_skip run cl m2 inv c hc hkey] at hB
      cases hA
      cases hB
      exact h12
    | some invKey =>
      rw [processItem_eq_of_key run cl m1 inv invKey c hc hkey] at hA
      rw [processItem_eq_of_key run cl m2 inv invKey c hc hkey] at hB
      cases hA
      cases hB
      intro r hr
      by_cases hik : invKey = r
      · subst hik
        rw [originLookup_insert_self, originLookup_insert_self]
      · rw [originLookup_insert_other _ _ _ _ hik,
          originLookup_insert_other _ _ _ _ hik,
          originLookup_insert_other _ _ _ _ hik,
          originLookup_insert_other _ _ _ _ hik]
        exact h12 r hr

theorem resolveLoop_agree (run : RunFn) {cl : List ChainLayer}
    {q : InventoryKey} : ∀ {l : List Inventory} {m1 m2 m1' m2' : OriginMap},
    agreeExcept q m1 m2 → resolveLoop run cl l m1 = some m1' →
    resolveLoop run cl l m2 = some m2' → agreeExcept q m1' m2' := by
  intro l
  induction l with
  | nil =>
    intro m1 m2 m1' m2' h12 hA hB
    cases hA
    cases hB
    exact h12
  | cons a t ih =>
    intro m1 m2 m1' m2' h12 hA hB
    simp only [resolveLoop] at hA hB
    cases hpA : processItem run cl m1 a with
    | none => rw [hpA] at hA; exact absurd hA (by simp)
    | some n1 =>
      cases hpB : processItem run cl m2 a with
      | none => rw [hpB] at hB; exact absurd hB (by simp)
      | some n2 =>
        rw [hpA] at hA
        rw [hpB] at hB
        exact ih (processItem_agree run h12 hpA hpB) hA hB

theorem probedLayers_skip_found (run : RunFn) (inv : Inventory)
    (invKey : InventoryKey) (hloc : inv.locations ≠ []) (b : Nat) :
    ∀ f, b ≤ f →
    (∀ i, b ≤ i → i < f →
      ∃ out, run i inv.locations = some out ∧ foundPackage out invKey = true) →
    ∀ x ∈ probedLayers run inv invKey b, x ∈ probedLayers run inv invKey f := by
  intro f
  induction f with
  | zero =>
    intro hb _
    rw [Nat.le_zero.mp hb]
    exact fun x hx => hx
  | succ j ih =>
    intro hb hfound
    rcases Nat.eq_or_lt_of_le hb with heq | hlt
    · rw [heq]
      exact fun x hx => hx
    · have hj : b ≤ j := Nat.lt_succ_iff.mp hlt
      obtain ⟨out, hrun, hfp⟩ := hfound j hj (Nat.lt_succ_self j)
      intro x hx
      have hstep : probedLayers run inv invKey (j + 1) =
          j :: probedLayers run inv invKey j := by
        simp [probedLayers, isEmpty_false_of_ne_nil hloc, hrun, hfp]
      rw [hstep]
      exact List.mem_cons_of_mem j
        (ih hj (fun i h1 h2 => hfound i h1 (Nat.lt_succ_of_lt h2)) x hx)

theorem resolve_decompose (run : RunFn) {cl : List ChainLayer} (hcl : cl ≠ [])
    (pre post : List Inventory) (inv : Inventory) :
    ∃ mpre mi mfin,
      resolveLoop run cl pre [] = some mpre ∧
      processItem run cl mpre inv = some mi ∧
      resolveLoop run cl post mi = some mfin ∧
      ResolveOriginLayer run (pre ++ inv :: post) cl = some mfin := by
  obtain ⟨mpre, h1⟩ :=
    Option.isSome_iff_exists.mp (resolveLoop_isSome run hcl pre [])
  obtain ⟨mi, h2⟩ :=
    Option.isSome_iff_exists.mp (processItem_isSome run mpre inv hcl)
  obtain ⟨mfin, h3⟩ :=
    Option.isSome_iff_exists.mp (resolveLoop_isSome run hcl post mi)
  refine ⟨mpre, mi, mfin, h1, h2, h3, ?_⟩
  unfold ResolveOriginLayer
  rw [resolveLoop_append, h1]
  simp only [Option.some_bind, resolveLoop, h2, h3]

theorem resolve_nil_pre (run : RunFn) {cl : List ChainLayer}
    {mpre mB : OriginMap} {pre post : List Inventory}
    (h1 : resolveLoop run cl pre [] = some mpre)
    (hB : resolveLoop run cl post mpre = some mB) :
    ResolveOriginLayer run (pre ++ post) cl = some mB := by
  unfold ResolveOriginLayer
  rw [resolveLoop_append, h1]
  simp only [Option.some_bind, hB]

/-! ### Claim theorems -/

/-- C10: Non-empty-chain precondition.  `ResolveOriginLayer` indexes
`chainLayers[len(chainLayers)-1]` before checking anything about the item, so
any call with a non-empty inventory and an empty chain-layer sequence panics
(modelled as `none`), while the function is total whenever the chain is
non-empty or the inventory is empty. -/
theorem resolve_empty_chain_panic (run : RunFn) (inventory : List Inventory)
    (cl : List ChainLayer) :
    (inventory ≠ [] → cl = [] → ResolveOriginLayer run inventory cl = none) ∧
    (cl ≠ [] → (ResolveOriginLayer run inventory cl).isSome) ∧
    (inventory = [] → (ResolveOriginLayer run inventory cl).isSome) := by
  refine ⟨?_, ?_, ?_⟩
  · intro hinv hcl
    subst hcl
    cases inventory with
    | nil => exact absurd rfl hinv
    | cons a t =>
      unfold ResolveOriginLayer
      simp only [resolveLoop, processItem_none_of_nil]
  · intro hcl
    exact resolveLoop_isSome run hcl inventory []
  · intro h
    subst h
    rfl

/-- C5: Identity-failure skip.  An item whose identity-key computation fails
contributes no entry: the output map is the same as the map computed with the
item removed, and the run is not aborted (provided the chain is non-empty,
without which any non-empty inventory panics regardless of keys). -/
theorem resolve_identity_failure_skip (run : RunFn) (cl : List ChainLayer)
    (pre post : List Inventory) (inv : Inventory) (hcl : cl ≠ [])
    (hkey : inv.toKey = none) :
    ResolveOriginLayer run (pre ++ inv :: post) cl =
      ResolveOriginLayer run (pre ++ post) cl ∧
    (ResolveOriginLayer run (pre ++ inv :: post) cl).isSome := by
  obtain ⟨mpre, mi, mfin, h1, h2, h3, hres⟩ := resolve_decompose run hcl pre post inv
  obtain ⟨c, hc⟩ := get?_last_some hcl
  have hskip : mi = mpre := by
    have := processItem_skip run cl mpre inv c hc hkey
    rw [this] at h2
    exact (Option.some_inj.mp h2).symm
  subst hskip
  refine ⟨?_, by rw [hres]; rfl⟩
  rw [hres, resolve_nil_pre run h1 h3]

/-- C9 (amended): No top-level error, cancellation only via probes.
`ResolveOriginLayer` has no error return and never consults the context
itself; the context reaches only the per-probe extraction calls, so for any
probe behavior whatsoever — including one that always fails, as under a
canceled context — the call completes and returns a mapping containing an
entry for every inventory item whose identity key computes (chain non-empty). -/
theorem resolve_no_toplevel_error (run : RunFn) (inventory : List Inventory)
    (cl : List ChainLayer) (hcl : cl ≠ []) :
    (ResolveOriginLayer run inventory cl).isSome ∧
    ∀ inv ∈ inventory, ∀ q, inv.toKey = some q →
      (resolvedDetails run inventory cl q).isSome := by
  have h := resolveLoop_isSome run hcl inventory []
  refine ⟨h, ?_⟩
  intro inv hmem q hkey
  obtain ⟨m, hm⟩ := Option.isSome_iff_exists.mp h
  have hm' : ResolveOriginLayer run inventory cl = some m := hm
  simp only [resolvedDetails, hm']
  exact resolveLoop_keyed_present run hm hmem hkey

/-- C2: Present-since-base.  If the item's identity is found by the scoped
re-extraction at every probed older layer (vacuously so for a single-layer
chain), the resolved entry is layer 0 with layer 0's metadata. -/
theorem resolve_present_since_base (run : RunFn) (cl : List ChainLayer)
    (pre post : List Inventory) (inv : Inventory) (invKey : InventoryKey)
    (c0 : ChainLayer) (h0 : cl.get? 0 = some c0)
    (hkey : inv.toKey = some invKey)
    (hfound : ∀ i, i < cl.length - 1 →
      ∃ out, run i inv.locations = some out ∧ foundPackage out invKey = true)
    (hpost : ∀ x ∈ post, x.toKey ≠ some invKey) :
    resolvedDetails run (pre ++ inv :: post) cl invKey =
      some { index := 0
             diffID := c0.diffID
             command := c0.command
             inBaseImage := false } := by
  have hcl : cl ≠ [] := by
    intro h
    subst h
    simp [List.get?] at h0
  obtain ⟨mpre, mi, mfin, h1, h2, h3, hres⟩ := resolve_decompose run hcl pre post inv
  have hwalk : originWalk run cl inv invKey (cl.length - 1) = none :=
    originWalk_all_found run cl inv invKey (cl.length - 1) hfound
  have hfin : itemFinal run cl inv invKey =
      { index := 0, diffID := c0.diffID, command := c0.command,
        inBaseImage := false } := by
    unfold itemFinal
    rw [hwalk, layerToDiffID_zero cl c0 h0, layerToCommands_zero cl c0 h0]
  have hmi : originLookup mi invKey =
      some { index := 0, diffID := c0.diffID, command := c0.command,
             inBaseImage := false } := by
    rw [processItem_lookup_self run h2 hkey, hfin]
  have hpres := resolveLoop_lookup_other run hpost h3
  simp only [resolvedDetails, hres]
  rw [hpres, hmi]

/-- C1: First-absence attribution.  If the item's identity is found by the
scoped re-extraction at every probed layer down to `k` but absent at layer
`k - 1` (for `1 ≤ k ≤ N - 1`), the resolved entry is a `LayerDetails` with
index `k` and layer `k`'s diffID and command; the backward walk probes layer
`k - 1` and no layer earlier than `k - 1`. -/
theorem resolve_first_absence_attribution (run : RunFn) (cl : List ChainLayer)
    (pre post : List Inventory) (inv : Inventory) (invKey : InventoryKey)
    (k : Nat) (ck : ChainLayer)
    (hk1 : 1 ≤ k) (hklt : k < cl.length) (hck : cl.get? k = some ck)
    (hkey : inv.toKey = some invKey) (hloc : inv.locations ≠ [])
    (hfound : ∀ i, k ≤ i → i < cl.length - 1 →
      ∃ out, run i inv.locations = some out ∧ foundPackage out invKey = true)
    (habsent : ∃ out, run (k - 1) inv.locations = some out ∧
      foundPackage out invKey = false)
    (hpost : ∀ x ∈ post, x.toKey ≠ some invKey) :
    resolvedDetails run (pre ++ inv :: post) cl invKey =
      some { index := (k : Int), diffID := ck.diffID, command := ck.command,
             inBaseImage := false } ∧
    (k - 1) ∈ probedLayers run inv invKey (cl.length - 1) ∧
    ∀ j ∈ probedLayers run inv invKey (cl.length - 1), k - 1 ≤ j := by
  obtain ⟨k', rfl⟩ : ∃ k', k = k' + 1 := ⟨k - 1, by omega⟩
  simp only [Nat.add_sub_cancel] at habsent ⊢
  obtain ⟨out0, hrun0, hfp0⟩ := habsent
  have hcl : cl ≠ [] := by
    intro h
    subst h
    simp at hklt
  have hb : k' + 1 ≤ cl.length - 1 := by omega
  have hstop_probe : probedLayers run inv invKey (k' + 1) = [k'] := by
    simp [probedLayers, isEmpty_false_of_ne_nil hloc, hrun0, hfp0]
  have hwalk : originWalk run cl inv invKey (cl.length - 1) =
      some { index := (k' : Int) + 1
             diffID := layerToDiffID cl ((k' : Int) + 1)
             command := layerToCommands cl ((k' : Int) + 1)
             inBaseImage := false } := by
    rw [originWalk_skip_found run cl inv invKey hloc (k' + 1) (cl.length - 1)
      hb hfound]
    exact originWalk_absent run cl inv invKey k' out0 hloc hrun0 hfp0
  have hcast : (k' : Int) + 1 = ((k' + 1 : Nat) : Int) := by push_cast; ring
  have hfin : itemFinal run cl inv invKey =
      { index := ((k' + 1 : Nat) : Int), diffID := ck.diffID,
        command := ck.command, inBaseImage := false } := by
    unfold itemFinal
    rw [hwalk, hcast, layerToDiffID_get? cl (k' + 1) ck hck,
      layerToCommands_get? cl (k' + 1) ck hck]
  obtain ⟨mpre, mi, mfin, h1, h2, h3, hres⟩ :=
    resolve_decompose run hcl pre post inv
  refine ⟨?_, ?_, ?_⟩
  · simp only [resolvedDetails, hres]
    rw [resolveLoop_lookup_other run hpost h3,
      processItem_lookup_self run h2 hkey, hfin]
  · refine probedLayers_skip_found run inv invKey hloc (k' + 1)
      (cl.length - 1) hb hfound k' ?_
    rw [hstop_probe]
    exact List.mem_singleton_self k'
  · have hlow := probedLayers_lower_bound run inv invKey (k' + 1)
      (by
        simp only [Nat.add_sub_cancel]
        intro out hout
        rw [hrun0] at hout
        cases hout
        exact hfp0)
      (cl.length - 1) hb hfound
    simpa using hlow

/-- C3 (amended): Probe-failure truncation.  A probe error at layer `j`
before any absence is found stops the walk (no layer earlier than `j` is
probed), but the trailing `if !foundOrigin` branch then assigns layer 0's
details (not the retained newest-layer default); the run is not aborted and
entries at every other key are as if the item were absent. -/
theorem resolve_probe_failure_layer_zero (run : RunFn) (cl : List ChainLayer)
    (pre post : List Inventory) (inv : Inventory) (invKey : InventoryKey)
    (j : Nat) (c0 : ChainLayer)
    (hj : j < cl.length - 1) (h0 : cl.get? 0 = some c0)
    (hkey : inv.toKey = some invKey) (hloc : inv.locations ≠ [])
    (herr : run j inv.locations = none)
    (hfound : ∀ i, j < i → i < cl.length - 1 →
      ∃ out, run i inv.locations = some out ∧ foundPackage out invKey = true)
    (hpost : ∀ x ∈ post, x.toKey ≠ some invKey) :
    resolvedDetails run (pre ++ inv :: post) cl invKey =
      some { index := 0, diffID := c0.diffID, command := c0.command,
             inBaseImage := false } ∧
    (∀ l ∈ probedLayers run inv invKey (cl.length - 1), j ≤ l) ∧
    (ResolveOriginLayer run (pre ++ inv :: post) cl).isSome ∧
    ∀ r, r ≠ invKey →
      resolvedDetails run (pre ++ inv :: post) cl r =
        resolvedDetails run (pre ++ post) cl r := by
  have hcl : cl ≠ [] := by
    intro h
    subst h
    simp [List.get?] at h0
  have hb : j + 1 ≤ cl.length - 1 := by omega
  have hshift : ∀ i, j + 1 ≤ i → i < cl.length - 1 →
      ∃ out, run i inv.locations = some out ∧ foundPackage out invKey = true :=
    fun i h1 h2 => hfound i (by omega) h2
  have hwalk : originWalk run cl inv invKey (cl.length - 1) = none := by
    rw [originWalk_skip_found run cl inv invKey hloc (j + 1) (cl.length - 1)
      hb hshift]
    exact originWalk_error run cl inv invKey j hloc herr
  have hfin : itemFinal run cl inv invKey =
      { index := 0, diffID := c0.diffID, command := c0.command,
        inBaseImage := false } := by
    unfold itemFinal
    rw [hwalk, layerToDiffID_zero cl c0 h0, layerToCommands_zero cl c0 h0]
  obtain ⟨mpre, mi, mfin, h1, h2, h3, hres⟩ :=
    resolve_decompose run hcl pre post inv
  obtain ⟨mB, hB⟩ :=
    Option.isSome_iff_exists.mp (resolveLoop_isSome run hcl post mpre)
  have hresB : ResolveOriginLayer run (pre ++ post) cl = some mB :=
    resolve_nil_pre run h1 hB
  refine ⟨?_, ?_, ?_, ?_⟩
  · simp only [resolvedDetails, hres]
    rw [resolveLoop_lookup_other run hpost h3,
      processItem_lookup_self run h2 hkey, hfin]
  · have hlow := probedLayers_lower_bound run inv invKey (j + 1)
      (by
        simp only [Nat.add_sub_cancel]
        intro out hout
        rw [herr] at hout
        exact Option.noConfusion hout)
      (cl.length - 1) hb hshift
    simpa using hlow
  · rw [hres]
    rfl
  · intro r hr
    have hagree1 : agreeExcept invKey mi mpre := by
      intro q hq
      refine processItem_lookup_other run h2 ?_
      rw [hkey]
      intro hc
      injection hc with hc'
      exact hq hc'.symm
    have hagree := resolveLoop_agree run hagree1 h3 hB
    simp only [resolvedDetails, hres, hresB]
    exact hagree r hr

/-- C4 (amended): Untraceable-item handling.  An item with a computed key but
empty locations is never probed, and its entry is a `LayerDetails` with index
0 and layer 0's diffID and command (the end-of-walk branch overwrites the
step-2 newest-layer default). -/
theorem resolve_untraceable_layer_zero (run : RunFn) (cl : List ChainLayer)
    (pre post : List Inventory) (inv : Inventory) (invKey : InventoryKey)
    (c0 : ChainLayer) (hN : 2 ≤ cl.length) (h0 : cl.get? 0 = some c0)
    (hkey : inv.toKey = some invKey) (hloc : inv.locations = [])
    (hpost : ∀ x ∈ post, x.toKey ≠ some invKey) :
    resolvedDetails run (pre ++ inv :: post) cl invKey =
      some { index := 0, diffID := c0.diffID, command := c0.command,
             inBaseImage := false } ∧
    probedLayers run inv invKey (cl.length - 1) = [] := by
  have hcl : cl ≠ [] := by
    intro h
    subst h
    simp at hN
  obtain ⟨mpre, mi, mfin, h1, h2, h3, hres⟩ :=
    resolve_decompose run hcl pre post inv
  have hfin : itemFinal run cl inv invKey =
      { index := 0, diffID := c0.diffID, command := c0.command,
        inBaseImage := false } := by
    unfold itemFinal
    rw [originWalk_empty_locations run cl inv invKey hloc,
      layerToDiffID_zero cl c0 h0, layerToCommands_zero cl c0 h0]
  refine ⟨?_, probedLayers_empty_locations run inv invKey hloc _⟩
  simp only [resolvedDetails, hres]
  rw [resolveLoop_lookup_other run hpost h3,
    processItem_lookup_self run h2 hkey, hfin]

/-! ### Attribution-merge lemmas and theorems -/

theorem enrichInventory_fields (m : OriginMap) (inv : Inventory) :
    (enrichInventory m inv).name = inv.name ∧
    (enrichInventory m inv).version = inv.version ∧
    (enrichInventory m inv).sourceCode = inv.sourceCode ∧
    (enrichInventory m inv).locations = inv.locations ∧
    (enrichInventory m inv).extractor = inv.extractor ∧
    (enrichInventory m inv).annotations = inv.annotations ∧
    (enrichInventory m inv).toKeyResult = inv.toKeyResult := by
  unfold enrichInventory
  cases hk : inv.toKey with
  | none => simp
  | some k => cases hl : originLookup m k <;> simp [hl]

theorem enrichInventory_found (m : OriginMap) (inv : Inventory)
    (k : InventoryKey) (d : LayerDetails) (hk : inv.toKey = some k)
    (hl : originLookup m k = some d) :
    (enrichInventory m inv).layerDetails = some d := by
  simp [enrichInventory, hk, hl]

theorem enrichInventory_missing (m : OriginMap) (inv : Inventory)
    (hmiss : ∀ k, inv.toKey = some k → originLookup m k = none) :
    enrichInventory m inv = { inv with layerDetails := none } := by
  cases hk : inv.toKey with
  | none => simp [enrichInventory, hk]
  | some k => simp [enrichInventory, hk, hmiss k hk]

theorem populate_get? (inventory : List Inventory) (m : OriginMap) (i : Nat) :
    (PopulateLayerDetails inventory m).get? i =
      (inventory.get? i).map (enrichInventory m) := by
  simp [PopulateLayerDetails, List.get?_eq_getElem?, List.getElem?_map]

/-- C6: Merge enrichment.  `PopulateLayerDetails` returns a list of the same
length and order as the input; each output element agrees with its input item
on every extractor-owned field (name, version, source code, locations,
extractor reference, annotations, and hence the identity key), and whenever
the item's identity key computes and the mapping holds a non-null entry for
it, the output element's layerDetails is exactly that entry. -/
theorem populate_merge_enrichment (inventory : List Inventory) (m : OriginMap) :
    (PopulateLayerDetails inventory m).length = inventory.length ∧
    ∀ i inv out, inventory.get? i = some inv →
      (PopulateLayerDetails inventory m).get? i = some out →
      ((out.name = inv.name ∧ out.version = inv.version ∧
        out.sourceCode = inv.sourceCode ∧ out.locations = inv.locations ∧
        out.extractor = inv.extractor ∧ out.annotations = inv.annotations ∧
        out.toKeyResult = inv.toKeyResult) ∧
       ∀ k d, inv.toKey = some k → originLookup m k = some d →
        out.layerDetails = some d) := by
  refine ⟨by simp [PopulateLayerDetails], ?_⟩
  intro i inv out hin hout
  rw [populate_get?, hin] at hout
  have hout' : out = enrichInventory m inv := by
    simpa using hout.symm
  subst hout'
  exact ⟨enrichInventory_fields m inv,
    fun k d hk hd => enrichInventory_found m inv k d hk hd⟩

/-- C7 (amended): Prior layerDetails are not preserved.  When the item's
identity key fails to compute or is absent from the mapping (or maps to a
nil pointer), the output element's layerDetails is unset (`none`) — the Go
copy never carries over the input's prior `LayerDetails` value. -/
theorem populate_prior_value_dropped (inventory : List Inventory)
    (m : OriginMap) (i : Nat) (inv : Inventory)
    (hin : inventory.get? i = some inv)
    (hmiss : ∀ k, inv.toKey = some k → originLookup m k = none) :
    (PopulateLayerDetails inventory m).get? i =
      some { inv with layerDetails := none } := by
  rw [populate_get?, hin]
  simp [enrichInventory_missing m inv hmiss]

/-- C8: Merge non-destruction.  The embedded merge is a pure per-element
transform: erasing layerDetails from its output recovers the input list
exactly (no other field of any element is touched, the Go code writes no
field of an input record), and re-running the merge on its own output with
the same mapping reproduces that output. -/
theorem populate_non_destructive (inventory : List Inventory) (m : OriginMap) :
    (PopulateLayerDetails inventory m).map
        (fun x => { x with layerDetails := none }) =
      inventory.map (fun x => { x with layerDetails := none }) ∧
    PopulateLayerDetails (PopulateLayerDetails inventory m) m =
      PopulateLayerDetails inventory m := by
  constructor
  · unfold PopulateLayerDetails
    rw [List.map_map]
    have hfun : ((fun x => { x with layerDetails := none }) ∘ enrichInventory m) =
        (fun x : Inventory => { x with layerDetails := none }) := by
      funext inv
      obtain ⟨n, v, sc, lo, ex, an, tk, ld⟩ := inv
      cases tk with
      | none => rfl
      | some k =>
        simp only [Function.comp_apply]
        cases hl : originLookup m k <;>
          simp [enrichInventory, Inventory.toKey, hl]
    rw [hfun]
  · unfold PopulateLayerDetails
    rw [List.map_map]
    have hfun : (enrichInventory m ∘ enrichInventory m) = enrichInventory m := by
      funext inv
      obtain ⟨n, v, sc, lo, ex, an, tk, ld⟩ := inv
      cases tk with
      | none => rfl
      | some k =>
        simp only [Function.comp_apply]
        cases hl : originLookup m k <;>
          simp [enrichInventory, Inventory.toKey, hl]
    rw [hfun]

/-! ### Concrete instances: counterexamples and witnesses -/

def c1key : InventoryKey := { purl := "pkg:pypi/bar", path := "bar.txt" }

def c1inv : Inventory :=
  { name := "bar", version := "1.0", sourceCode := "", locations := ["bar.txt"],
    extractor := "fake", annotations := [], toKeyResult := some c1key,
    layerDetails := none }

def c1cl : List ChainLayer :=
  [ { index := 0, diffID := "diff-a", command := "cmd-a" },
    { index := 1, diffID := "diff-b", command := "cmd-b" },
    { index := 2, diffID := "diff-c", command := "cmd-c" } ]

def c1run : RunFn := fun i _ => if i = 1 then some [c1inv] else some []

/-- C1 witness: 3-layer chain, identity absent at layer 0 and found at layer
1, so the resolved entry is layer 1's details. -/
theorem resolve_first_absence_attribution_witness :
    resolvedDetails c1run [c1inv] c1cl c1key =
      some { index := 1, diffID := "diff-b", command := "cmd-b",
             inBaseImage := false } := by
  have h := (resolve_first_absence_attribution c1run c1cl [] [] c1inv c1key 1
    { index := 1, diffID := "diff-b", command := "cmd-b" }
    (by decide) (by decide) rfl rfl (by decide)
    (fun i h1 h2 => by
      have hi : i = 1 := by
        have h2' : i < 2 := by simpa [c1cl] using h2
        omega
      subst hi
      exact ⟨[c1inv], rfl, by decide⟩)
    ⟨[], rfl, rfl⟩
    (fun x hx => absurd hx (List.not_mem_nil x))).1
  simpa using h

def c2key : InventoryKey := { purl := "pkg:pypi/foo", path := "foo.txt" }

def c2inv : Inventory :=
  { name := "foo", version := "1.0", sourceCode := "", locations := ["foo.txt"],
    extractor := "fake", annotations := [], toKeyResult := some c2key,
    layerDetails := none }

def c2cl : List ChainLayer :=
  [ { index := 0, diffID := "base-diff", command := "base-cmd" } ]

/-- C2 witness: the degenerate single-layer chain, in which no older layer is
probed and the entry is layer 0's details. -/
theorem resolve_present_since_base_witness :
    resolvedDetails (fun _ _ => none) [c2inv] c2cl c2key =
      some { index := 0, diffID := "base-diff", command := "base-cmd",
             inBaseImage := false } := by
  have h := resolve_present_since_base (fun _ _ => none) c2cl [] [] c2inv c2key
    { index := 0, diffID := "base-diff", command := "base-cmd" } rfl rfl
    (fun i hi => by simp [c2cl] at hi)
    (fun x hx => absurd hx (List.not_mem_nil x))
  simpa using h

def c3key : InventoryKey := { purl := "pkg:pypi/foo", path := "foo.txt" }

def c3inv : Inventory :=
  { name := "foo", version := "1.0", sourceCode := "", locations := ["foo.txt"],
    extractor := "fake", annotations := [], toKeyResult := some c3key,
    layerDetails := none }

def c3cl : List ChainLayer :=
  [ { index := 0, diffID := "diff-zero", command := "cmd-zero" },
    { index := 1, diffID := "diff-one", command := "cmd-one" } ]

def c3run : RunFn := fun _ _ => none

/-- C3 counterexample: 2-layer chain, probe error at layer 0 before any
absence is found.  The claim says the entry keeps the newest-layer default
(index 1 with layer 1's metadata); the code's trailing branch instead
assigns layer 0's details. -/
theorem resolve_probe_failure_cex :
    resolvedDetails c3run [c3inv] c3cl c3key =
      some { index := 0, diffID := "diff-zero", command := "cmd-zero",
             inBaseImage := false } ∧
    resolvedDetails c3run [c3inv] c3cl c3key ≠
      some { index := 1, diffID := "diff-one", command := "cmd-one",
             inBaseImage := false } := by
  decide

/-- C3 witness for the amended theorem: the probe error at layer 0 yields the
layer-0 entry. -/
theorem resolve_probe_failure_layer_zero_witness :
    resolvedDetails c3run [c3inv] c3cl c3key =
      some { index := 0, diffID := "diff-zero", command := "cmd-zero",
             inBaseImage := false } := by
  have h := (resolve_probe_failure_layer_zero c3run c3cl [] [] c3inv c3key 0
    { index := 0, diffID := "diff-zero", command := "cmd-zero" }
    (by decide) rfl rfl (by decide) rfl
    (fun i h1 h2 => by
      have h2' : i < 1 := by simpa [c3cl] using h2
      omega)
    (fun x hx => absurd hx (List.not_mem_nil x))).1
  simpa using h

def c4key : InventoryKey := { purl := "pkg:pypi/foo", path := "foo.txt" }

def c4inv : Inventory :=
  { name := "foo", version := "1.0", sourceCode := "", locations := [],
    extractor := "fake", annotations := [], toKeyResult := some c4key,
    layerDetails := none }

def c4cl : List ChainLayer :=
  [ { index := 0, diffID := "diff-zero", command := "cmd-zero" },
    { index := 1, diffID := "diff-one", command := "cmd-one" } ]

def c4run : RunFn := fun _ _ => some []

/-- C4 counterexample: 2-layer chain, item with a computed key and empty
locations.  The claim says the step-2 default (index 1 = N-1, layer 1's
metadata) stands; the code's trailing branch overwrites it with layer 0's
details. -/
theorem resolve_untraceable_default_cex :
    resolvedDetails c4run [c4inv] c4cl c4key =
      some { index := 0, diffID := "diff-zero", command := "cmd-zero",
             inBaseImage := false } ∧
    resolvedDetails c4run [c4inv] c4cl c4key ≠
      some { index := 1, diffID := "diff-one", command := "cmd-one",
             inBaseImage := false } := by
  decide

/-- C4 witness for the amended theorem. -/
theorem resolve_untraceable_layer_zero_witness :
    resolvedDetails c4run [c4inv] c4cl c4key =
      some { index := 0, diffID := "diff-zero", command := "cmd-zero",
             inBaseImage := false } ∧
    probedLayers c4run c4inv c4key (c4cl.length - 1) = [] := by
  have h := resolve_untraceable_layer_zero c4run c4cl [] [] c4inv c4key
    { index := 0, diffID := "diff-zero", command := "cmd-zero" }
    (by decide) rfl rfl rfl
    (fun x hx => absurd hx (List.not_mem_nil x))
  simpa using h

def c5key : InventoryKey := { purl := "pkg:pypi/good", path := "g.txt" }

def c5good : Inventory :=
  { name := "good", version := "1.0", sourceCode := "", locations := ["g.txt"],
    extractor := "fake", annotations := [], toKeyResult := some c5key,
    layerDetails := none }

def c5bad : Inventory :=
  { name := "bad", version := "1.0", sourceCode := "", locations := ["b.txt"],
    extractor := "fake", annotations := [], toKeyResult := none,
    layerDetails := none }

def c5cl : List ChainLayer :=
  [ { index := 0, diffID := "d0", command := "c0" } ]

def c5run : RunFn := fun _ _ => some []

/-- C5 witness: a failing-key item contributes nothing and aborts nothing. -/
theorem resolve_identity_failure_skip_witness :
    ResolveOriginLayer c5run [c5bad, c5good] c5cl =
      ResolveOriginLayer c5run [c5good] c5cl ∧
    (ResolveOriginLayer c5run [c5bad, c5good] c5cl).isSome := by
  have h := resolve_identity_failure_skip c5run c5cl [] [c5good] c5bad
    (by decide) rfl
  simpa using h

def c9key : InventoryKey := { purl := "pkg:pypi/foo", path := "f.txt" }

def c9inv : Inventory :=
  { name := "foo", version := "1.0", sourceCode := "", locations := ["f.txt"],
    extractor := "fake", annotations := [], toKeyResult := some c9key,
    layerDetails := none }

def c9cl : List ChainLayer :=
  [ { index := 0, diffID := "d0", command := "c0" } ]

/-- C9 counterexample: with a single-layer chain the probe function — the
only place the context reaches — is never invoked for the item, so a
canceled run is indistinguishable from an uncanceled one: both complete and
return identical full mappings, and no error-like outcome exists (the
cancellation signal is not checked even once for the item, and nothing
aborts). -/
theorem resolve_cancellation_cex :
    ResolveOriginLayer (fun _ _ => none) [c9inv] c9cl =
      ResolveOriginLayer (fun _ _ => some [c9inv]) [c9inv] c9cl ∧
    probedLayers (fun _ _ => none) c9inv c9key (c9cl.length - 1) = [] ∧
    (ResolveOriginLayer (fun _ _ => none) [c9inv] c9cl).isSome := by
  decide

/-- C9 witness for the amended theorem: even with every probe failing (as
under a canceled context) the keyed item still receives an entry. -/
theorem resolve_no_toplevel_error_witness :
    (resolvedDetails (fun _ _ => none) [c9inv] c9cl c9key).isSome :=
  (resolve_no_toplevel_error (fun _ _ => none) [c9inv] c9cl (by decide)).2
    c9inv (List.mem_singleton_self c9inv) c9key rfl

def c10inv : Inventory :=
  { name := "foo", version := "1.0", sourceCode := "", locations := ["f.txt"],
    extractor := "fake", annotations := [],
    toKeyResult := some { purl := "pkg:pypi/foo", path := "f.txt" },
    layerDetails := none }

/-- C10 witness: non-empty inventory with an empty chain panics; a non-empty
chain is total. -/
theorem resolve_empty_chain_panic_witness :
    ResolveOriginLayer (fun _ _ => some []) [c10inv] [] = none ∧
    (ResolveOriginLayer (fun _ _ => some []) [c10inv]
      [ { index := 0, diffID := "d", command := "c" } ]).isSome :=
  ⟨(resolve_empty_chain_panic (fun _ _ => some []) [c10inv] []).1
      (List.cons_ne_nil c10inv []) rfl,
   (resolve_empty_chain_panic (fun _ _ => some []) [c10inv]
      [ { index := 0, diffID := "d", command := "c" } ]).2.1
      (List.cons_ne_nil _ [])⟩

def c6key : InventoryKey := { purl := "pkg:pypi/foo", path := "foo.txt" }

def c6d : LayerDetails :=
  { index := 2, diffID := "dd", command := "cc", inBaseImage := false }

def c6inv : Inventory :=
  { name := "foo", version := "1.0", sourceCode := "src", locations := ["foo.txt"],
    extractor := "fake", annotations := ["a"], toKeyResult := some c6key,
    layerDetails := none }

def c6map : OriginMap := [(c6key, some c6d)]

def c6out : Inventory := enrichInventory c6map c6inv

/-- C6 witness: a matching non-null mapping entry lands in the copy's
layerDetails while the extractor-owned fields are preserved. -/
theorem populate_merge_enrichment_witness :
    c6out.layerDetails = some c6d ∧ c6out.name = c6inv.name :=
  ⟨((populate_merge_enrichment [c6inv] c6map).2 0 c6inv c6out rfl rfl).2
      c6key c6d rfl rfl,
   ((populate_merge_enrichment [c6inv] c6map).2 0 c6inv c6out rfl rfl).1.1⟩

def c7key : InventoryKey := { purl := "pkg:pypi/foo", path := "foo.txt" }

def c7prior : LayerDetails :=
  { index := 7, diffID := "prior-diff", command := "prior-cmd",
    inBaseImage := true }

def c7inv : Inventory :=
  { name := "foo", version := "1.0", sourceCode := "", locations := ["foo.txt"],
    extractor := "fake", annotations := [], toKeyResult := some c7key,
    layerDetails := some c7prior }

/-- C7 counterexample: the input item carries a previously set layerDetails
and its key is absent from the mapping; the claim says the output keeps the
prior value, but the copy's layerDetails is `none`. -/
theorem populate_prior_value_cex :
    (PopulateLayerDetails [c7inv] []).get? 0 =
      some { c7inv with layerDetails := none } ∧
    c7inv.layerDetails = some c7prior ∧
    ((PopulateLayerDetails [c7inv] []).get? 0).map Inventory.layerDetails ≠
      some c7inv.layerDetails := by
  decide

/-- C7 witness for the amended theorem. -/
theorem populate_prior_value_dropped_witness :
    (PopulateLayerDetails [c7inv] []).get? 0 =
      some { c7inv with layerDetails := none } :=
  populate_prior_value_dropped [c7inv] [] 0 c7inv rfl (fun _ _ => rfl)

end Trace
